import Mathlib

/-!
Verification of the quiz application's core logic (source: 不定项选择自测.py).

The development shallowly embeds the program's data model and operations:

* the question-bank loader `load_questions` (file reading and JSON parsing are
  abstracted into a `LoadInput` summary of what the file contained; the
  validation logic itself is translated line by line);
* the session state (`Session`), its reset (`reset_quiz`), and the state
  mutating event handlers `show_question` / `switch_question` / `save_answer` /
  `update_timer`;
* the display mapping of `show_question` (`displayedOptions`), which shows at
  position `i` the original option of index `option_shuffle_map[idx][i]`;
* the grading logic of `submit` and the pre-submission check of `try_submit`.

Displayed labels and original option labels are single characters (the
program takes `cb.text()[0]` and `q['options'][orig_idx][0]`, and writes the
bank's answer entries as one-letter strings such as "A").  Python exceptions
(`ValueError` from `list.index`, `IndexError` from out-of-range subscripts)
are modelled by `Except String`.  Python `set`s are modelled by lists without
duplicates, compared through `List.toFinset`.
-/

/-! ## Question bank loader -/

/-- Raw question record as parsed from JSON: each of the four required fields
is present (`some`) or absent (`none`).  `id` is kept abstract as a string,
`answer` as the raw list of label strings. -/
structure RawQuestion where
  id : Option String
  question : Option String
  options : Option (List String)
  answer : Option (List String)
deriving DecidableEq, Repr

instance : Inhabited RawQuestion := ⟨⟨none, none, none, none⟩⟩

/-- Summary of what `load_questions` finds on disk: the file may be missing,
the JSON may fail to parse, the top level may lack the `questions` key, or a
list of raw question records is obtained. -/
inductive LoadInput where
  | missing
  | malformed
  | noQuestionsKey
  | ok (questions : List RawQuestion)
deriving DecidableEq

/-- Translation of the per-question field check of `load_questions`: the
fields are examined in the order id, question, options, answer, and the first
absent field aborts the loop (`i` is the 1-based question number used in the
error message). -/
def firstMissingField (i : Nat) : List RawQuestion → Option (Nat × String)
  | [] => none
  | q :: qs =>
    if q.id.isNone then some (i, "id")
    else if q.question.isNone then some (i, "question")
    else if q.options.isNone then some (i, "options")
    else if q.answer.isNone then some (i, "answer")
    else firstMissingField (i + 1) qs

/-- Translation of `load_questions`: missing file, malformed JSON, a missing
`questions` key, and a question with a missing required field each raise; on
success the parsed question list is returned as is. -/
def load_questions : LoadInput → Except String (List RawQuestion)
  | .missing => .error "加载题库失败：题库文件不存在"
  | .malformed => .error "题库文件格式错误"
  | .noQuestionsKey => .error "加载题库失败：题库文件格式错误：缺少 questions 字段"
  | .ok qs =>
    match firstMissingField 1 qs with
    | some (i, f) => .error ("加载题库失败：第" ++ toString i ++ "题缺少必要字段：" ++ f)
    | none => .ok qs

/-- A raw question has all four required fields present. -/
def hasRequiredFields (q : RawQuestion) : Prop :=
  q.id.isSome = true ∧ q.question.isSome = true ∧
  q.options.isSome = true ∧ q.answer.isSome = true

instance (q : RawQuestion) : Decidable (hasRequiredFields q) := by
  unfold hasRequiredFields; infer_instance

/-! ## Session data model -/

/-- A loaded question as the session code uses it: `options` are the stored
option strings (each beginning with a label prefix such as "A."), `answer`
is the authoritative set of original labels. -/
structure Question where
  id : Nat
  question : String
  options : List String
  answer : List Char
deriving DecidableEq, Repr

instance : Inhabited Question := ⟨⟨0, "", [], []⟩⟩

/-- The displayed label alphabet `abcd = ['A', ..., 'H']` of the source. -/
def abcd : List Char := ['A', 'B', 'C', 'D', 'E', 'F', 'G', 'H']

/-- The session state fields of `QuizWindow` that the quiz logic reads and
writes (widgets and the Qt timer object are presentation, not state). -/
structure Session where
  quiz : List Question
  userAnswers : List (List Char)
  currentIndex : Nat
  startTime : Nat
  elapsedSeconds : Nat
  optionShuffleMap : List (List Nat)
deriving DecidableEq

/-- Translation of `reset_quiz`: `random.shuffle` outcomes enter as the
already shuffled question list and the list of per-question index
permutations (theorems hypothesise that each is a permutation of
`List.range` of the option count, which `random.shuffle` of
`list(range(len(q['options'])))` guarantees).  Answers are cleared, the
current index and timer restart. -/
def reset_quiz (shuffledQuiz : List Question) (perms : List (List Nat)) (now : Nat) : Session :=
  { quiz := shuffledQuiz
    userAnswers := shuffledQuiz.map (fun _ => [])
    currentIndex := 0
    startTime := now
    elapsedSeconds := 0
    optionShuffleMap := perms }

/-- Translation of the state effect of `show_question idx`: only
`current_index` is assigned; the widget rebuild reads `quiz`,
`option_shuffle_map` and `user_answers` without writing them (checkboxes are
restored with `setChecked` before `stateChanged` is connected). -/
def show_question (st : Session) (idx : Nat) : Session :=
  { st with currentIndex := idx }

/-- Translation of `switch_question`: the navigation callback receives an
`int` row which is `-1` when the selection is cleared, and shows the question
only for a non-negative row. -/
def switch_question (st : Session) (idx : Int) : Session :=
  if 0 ≤ idx then show_question st idx.toNat else st

/-- Translation of `save_answer`: the set of currently checked displayed
labels replaces `user_answers[current_index]`; an empty selection is stored
as the empty set (unanswered). -/
def save_answer (st : Session) (selected : List Char) : Session :=
  if selected.isEmpty then
    { st with userAnswers := st.userAnswers.set st.currentIndex [] }
  else
    { st with userAnswers := st.userAnswers.set st.currentIndex selected }

/-- Translation of `update_timer`: the elapsed seconds are recomputed from
the wall clock (`now`) and the stored start time. -/
def update_timer (st : Session) (now : Nat) : Session :=
  { st with elapsedSeconds := now - st.startTime }

/-- The session-mutating events available while a session is active:
navigation, answer toggling (through `save_answer`), and timer ticks. -/
inductive QuizEvent where
  | navigate (idx : Int)
  | answer (selected : List Char)
  | tick (now : Nat)

/-- Dispatch one event to its handler. -/
def applyEvent (st : Session) : QuizEvent → Session
  | .navigate idx => switch_question st idx
  | .answer selected => save_answer st selected
  | .tick now => update_timer st now

/-- Apply a sequence of session events in order. -/
def applyEvents (st : Session) (evs : List QuizEvent) : Session :=
  evs.foldl applyEvent st

/-! ## Display mapping -/

/-- Loop body of `show_question`: iterate over `abcd[:len(options)]` with
position `i`, showing at position `i` the checkbox label and the text of the
original option `options[indices[i]]` with its two-character prefix ("A.")
removed. -/
def displayedOptionsAux (options : List String) (indices : List Nat) (i : Nat) :
    List Char → List (Char × String)
  | [] => []
  | ab :: rest =>
    (ab, String.mk ((options.getD (indices.getD i 0) "").data.drop 2)) ::
      displayedOptionsAux options indices (i + 1) rest

/-- Translation of the option display of `show_question`: the list of
(displayed label, displayed text) pairs, in display order. -/
def displayedOptions (options : List String) (indices : List Nat) : List (Char × String) :=
  displayedOptionsAux options indices 0 (abcd.take options.length)

/-! ## Grading -/

/-- Translation of the per-label step of `submit`: `idx_ab = abcd.index(ab)`
(raising `ValueError` when `ab` is not a displayed letter); when `idx_ab`
is within the permutation, the original option `options[indices[idx_ab]]`
is fetched (raising `IndexError` when out of range) and its first character
(raising `IndexError` on an empty string) is the recovered original label;
otherwise the label is silently skipped (`.ok none`). -/
def gradeLabel (options : List String) (indices : List Nat) (ab : Char) :
    Except String (Option Char) :=
  match List.indexOf? ab abcd with
  | none => .error "ValueError: label is not in list"
  | some idxAb =>
    if h : idxAb < indices.length then
      match options.get? (indices.get ⟨idxAb, h⟩) with
      | none => .error "IndexError: list index out of range"
      | some opt =>
        match opt.data.head? with
        | none => .error "IndexError: string index out of range"
        | some c => .ok (some c)
    else .ok none

/-- Loop of `submit` that builds the user's mapped original-label set `user`
from the stored displayed-label selections, accumulating with set insertion. -/
def mapUserSetAux (options : List String) (indices : List Nat) (acc : List Char) :
    List Char → Except String (List Char)
  | [] => .ok acc
  | ab :: rest =>
    match gradeLabel options indices ab with
    | .error e => .error e
    | .ok (some c) => mapUserSetAux options indices (acc.insert c) rest
    | .ok none => mapUserSetAux options indices acc rest

/-- The user's selections for one question, mapped back through the option
permutation to original labels (the set `user` of `submit`). -/
def mapUserSet (options : List String) (indices : List Nat) (ans : List Char) :
    Except String (List Char) :=
  mapUserSetAux options indices [] ans

/-- One recorded mistake of the grading report, mirroring the tuple
`(q['id'], q['question'], q['options'], ''.join(sorted(right)), ''.join(sorted(user)))`. -/
structure WrongEntry where
  id : Nat
  question : String
  options : List String
  right : String
  user : String
deriving DecidableEq, Repr

/-- Python's `''.join(sorted(s))` on a set of one-character labels: sort the
distinct characters by code point and concatenate. -/
def sortedString (labels : List Char) : String :=
  String.mk (List.insertionSort (fun a b => a ≤ b) labels.dedup)

/-- Build the mismatch tuple recorded by `submit` for one question. -/
def mkWrongEntry (q : Question) (user : List Char) : WrongEntry :=
  { id := q.id
    question := q.question
    options := q.options
    right := sortedString q.answer
    user := sortedString user }

/-- Grading loop of `submit` over the zipped quiz, permutation and answer
lists: for each question the mapped user set is compared with the
authoritative set `right = set(q['answer'])`, and mismatching questions are
appended in quiz order; a missing permutation or answers entry is the
`IndexError` Python would raise on `self.option_shuffle_map[i]`. -/
def gradeQuestions : List Question → List (List Nat) → List (List Char) →
    Except String (List WrongEntry)
  | [], _, _ => .ok []
  | _ :: _, [], _ => .error "IndexError: list index out of range"
  | _ :: _, _ :: _, [] => .error "IndexError: list index out of range"
  | q :: qs, indices :: ps, ans :: anss =>
    match mapUserSet q.options indices ans with
    | .error e => .error e
    | .ok user =>
      match gradeQuestions qs ps anss with
      | .error e => .error e
      | .ok rest =>
        if user.toFinset = q.answer.toFinset then .ok rest
        else .ok (mkWrongEntry q user :: rest)

/-- Sort key of a mismatch tuple: Python's `sorted(wrong)` compares the
tuples lexicographically componentwise. -/
def entryKey (e : WrongEntry) :
    Lex (Nat × Lex (String × Lex (List String × Lex (String × String)))) :=
  toLex (e.id, toLex (e.question, toLex (e.options, toLex (e.right, e.user))))

/-- Tuple order used by `sorted(wrong)`. -/
def entryRel (a b : WrongEntry) : Prop := entryKey a ≤ entryKey b

instance : DecidableRel entryRel := fun a b =>
  inferInstanceAs (Decidable (entryKey a ≤ entryKey b))

/-- The grading report of `submit`: the mismatch count `len(wrong)`, the
question count `len(self.quiz)`, and the mismatch list as displayed —
`sorted(wrong)`, i.e. sorted by the tuple order (ascending question id
first). -/
structure GradeReport where
  wrongCount : Nat
  total : Nat
  wrong : List WrongEntry
deriving DecidableEq

/-- Translation of `submit`: grade every question against the session's
stored permutations and answers.  The method writes none of the session
fields (it only stops the Qt timer and builds the report dialog), so the
unchanged session is returned alongside the report. -/
def submit (st : Session) : Except String (Session × GradeReport) :=
  match gradeQuestions st.quiz st.optionShuffleMap st.userAnswers with
  | .error e => .error e
  | .ok wrongList =>
    .ok (st,
      { wrongCount := wrongList.length
        total := st.quiz.length
        wrong := List.insertionSort entryRel wrongList })

/-- Count of unanswered questions computed by `try_submit`:
`sum(1 for ans in self.user_answers if not ans)`. -/
def unansweredCount (st : Session) : Nat :=
  st.userAnswers.countP (fun ans => ans.isEmpty)

/-- Outcome of `try_submit`: either the confirmation dialog was refused and
nothing happened, or the session was graded. -/
inductive SubmitOutcome where
  | cancelled (st : Session)
  | graded (st : Session) (report : GradeReport)
deriving DecidableEq

/-- Translation of `try_submit`: when some questions are unanswered the user
is asked; a refusal returns with the session untouched, otherwise (or when
everything is answered, with no prompt) `submit` runs. -/
def try_submit (st : Session) (confirmYes : Bool) : Except String SubmitOutcome :=
  if 0 < unansweredCount st then
    if confirmYes then (submit st).map (fun p => .graded p.1 p.2)
    else .ok (.cancelled st)
  else (submit st).map (fun p => .graded p.1 p.2)

/-! ## Validity predicates for sessions -/

/-- The permutation stored for a question is a rearrangement of the indices
of its option list (what `random.shuffle(list(range(len(q['options']))))`
produces). -/
def permOk (q : Question) (indices : List Nat) : Prop :=
  indices.Perm (List.range q.options.length)

/-- A stored answer set only contains displayed letters (every selection
comes from a checkbox labelled with a letter of `abcd`). -/
def labelsOk (ans : List Char) : Prop := ∀ ab ∈ ans, ab ∈ abcd

/-- Every option string of a question is non-empty (it carries a label
prefix such as "A."). -/
def optionsNonempty (q : Question) : Prop := ∀ opt ∈ q.options, opt.data ≠ []

/-- Session validity: permutations align with the quiz and are genuine
permutations, answers align with the quiz and hold displayed letters, and
options are labelled. -/
def SessionOk (st : Session) : Prop :=
  List.Forall₂ permOk st.quiz st.optionShuffleMap ∧
  List.Forall₂ (fun _ ans => labelsOk ans) st.quiz st.userAnswers ∧
  ∀ q ∈ st.quiz, optionsNonempty q

/-- A list of naturals is a bijection over `[0, n)`: it enumerates each
index below `n` exactly once. -/
def bijectionOn (l : List Nat) (n : Nat) : Prop :=
  l.length = n ∧ l.Nodup ∧ ∀ k, k ∈ l ↔ k < n

instance (q : Question) (indices : List Nat) : Decidable (permOk q indices) := by
  unfold permOk; infer_instance

instance (ans : List Char) : Decidable (labelsOk ans) := by
  unfold labelsOk; infer_instance

instance (q : Question) : Decidable (optionsNonempty q) := by
  unfold optionsNonempty; infer_instance

instance (st : Session) : Decidable (SessionOk st) := by
  unfold SessionOk; infer_instance

/-! ## Helper lemmas -/

/-- The field-presence scan succeeds when every question has all four
required fields, independently of the running question number. -/
lemma firstMissingField_eq_none_of (qs : List RawQuestion) :
    ∀ i, (∀ q ∈ qs, hasRequiredFields q) → firstMissingField i qs = none := by
  induction qs with
  | nil => intro i _; rfl
  | cons q qs ih =>
    intro i h
    obtain ⟨hq, hrest⟩ := List.forall_mem_cons.mp h
    obtain ⟨hid, hques, hopts, hans⟩ := hq
    simp only [firstMissingField]
    rw [if_neg (fun hc => Option.isSome_iff_ne_none.mp hid (Option.isNone_iff_eq_none.mp hc)),
      if_neg (fun hc => Option.isSome_iff_ne_none.mp hques (Option.isNone_iff_eq_none.mp hc)),
      if_neg (fun hc => Option.isSome_iff_ne_none.mp hopts (Option.isNone_iff_eq_none.mp hc)),
      if_neg (fun hc => Option.isSome_iff_ne_none.mp hans (Option.isNone_iff_eq_none.mp hc))]
    exact ih (i + 1) hrest

/-- Conversely, a successful field-presence scan means every question has
all four required fields. -/
lemma forall_hasRequiredFields_of_firstMissingField (qs : List RawQuestion) :
    ∀ i, firstMissingField i qs = none → ∀ q ∈ qs, hasRequiredFields q := by
  induction qs with
  | nil => intro i _ q hq; cases hq
  | cons q qs ih =>
    intro i h
    simp only [firstMissingField] at h
    split_ifs at h with h1 h2 h3 h4 <;> try simp at h
    intro q2 hq2
    rcases List.mem_cons.mp hq2 with rfl | hmem
    · exact ⟨Option.isSome_iff_ne_none.mpr (fun hc => h1 (Option.isNone_iff_eq_none.mpr hc)),
        Option.isSome_iff_ne_none.mpr (fun hc => h2 (Option.isNone_iff_eq_none.mpr hc)),
        Option.isSome_iff_ne_none.mpr (fun hc => h3 (Option.isNone_iff_eq_none.mpr hc)),
        Option.isSome_iff_ne_none.mpr (fun hc => h4 (Option.isNone_iff_eq_none.mpr hc))⟩
    · exact ih (i + 1) h q2 hmem

/-! ## C4: loader contract -/

/-- C4: the question bank loader raises a descriptive error if and only if
the file is missing, the content is not well-formed JSON, the top-level
`questions` key is absent, or some question lacks one of the fields id,
question, options, answer; on success it returns the question sequence
exactly as stored in the file, in file order, with no shuffling or
modification. -/
theorem load_questions_contract (inp : LoadInput) :
    ((inp = .missing ∨ inp = .malformed ∨ inp = .noQuestionsKey) →
      ∃ e, load_questions inp = .error e) ∧
    (∀ qs, inp = .ok qs →
      ((∀ q ∈ qs, hasRequiredFields q) → load_questions inp = .ok qs) ∧
      ((∃ q ∈ qs, ¬ hasRequiredFields q) → ∃ e, load_questions inp = .error e)) := by
  constructor
  · rintro (rfl | rfl | rfl) <;> exact ⟨_, rfl⟩
  · rintro qs rfl
    constructor
    · intro hall
      simp only [load_questions, firstMissingField_eq_none_of qs 1 hall]
    · rintro ⟨q, hq, hbad⟩
      rcases hmiss : firstMissingField 1 qs with - | ⟨i, f⟩
      · exact absurd (forall_hasRequiredFields_of_firstMissingField qs 1 hmiss q hq) hbad
      · exact ⟨"加载题库失败：第" ++ toString i ++ "题缺少必要字段：" ++ f,
          by simp only [load_questions, hmiss]⟩

/-- A well-formed two-question bank used to instantiate the loader theorems. -/
def demoBank : List RawQuestion :=
  [⟨some "1", some "工程伦理的核心是什么", some ["A.责任", "B.利益"], some ["A"]⟩,
   ⟨some "2", some "第二题", some ["A.p", "B.q", "C.r"], some ["B", "C"]⟩]

/-- Witness for C4: the loader returns the demo bank unchanged. -/
theorem load_questions_contract_witness :
    load_questions (.ok demoBank) = .ok demoBank :=
  ((load_questions_contract (.ok demoBank)).2 demoBank rfl).1 (by decide)

/-! ## C5: answer-set validation at load time -/

/-- A bank whose first question has an empty answer set and whose second has
an answer label that is not the label of any of its options. -/
def invalidAnswerBank : List RawQuestion :=
  [⟨some "1", some "q1", some ["A.x", "B.y"], some []⟩,
   ⟨some "2", some "q2", some ["A.x", "B.y"], some ["Z"]⟩]

/-- Counterexample to C5: the loader accepts a bank containing a question
with an empty answer set and a question whose answer references the label Z
absent from its options; no load-time rejection happens. -/
theorem load_accepts_invalid_answers :
    load_questions (.ok invalidAnswerBank) = .ok invalidAnswerBank ∧
    (invalidAnswerBank.getD 0 default).answer = some [] ∧
    (invalidAnswerBank.getD 1 default).answer = some ["Z"] ∧
    ∀ opt ∈ ((invalidAnswerBank.getD 1 default).options).getD [],
      opt.data.head? ≠ some 'Z' := by
  refine ⟨rfl, rfl, rfl, ?_⟩
  decide

/-- C5 as amended: load-time validation checks only the presence of the four
required fields and never inspects answer contents, so a bank in which some
question has an empty answer set or an answer label matching none of its
options is accepted unchanged rather than rejected. -/
theorem load_no_answer_validation (qs : List RawQuestion)
    (hfields : ∀ q ∈ qs, hasRequiredFields q)
    (hbad : ∃ q ∈ qs, q.answer = some [] ∨
      ∃ lab ∈ q.answer.getD [], ∀ opt ∈ q.options.getD [], opt.data.head? ≠ lab.data.head?) :
    load_questions (.ok qs) = .ok qs := by
  simp only [load_questions, firstMissingField_eq_none_of qs 1 hfields]

/-- Witness for the amended C5 at the invalid bank. -/
theorem load_no_answer_validation_witness :
    load_questions (.ok invalidAnswerBank) = .ok invalidAnswerBank :=
  load_no_answer_validation invalidAnswerBank (by decide)
    ⟨invalidAnswerBank.getD 0 default, by decide, Or.inl rfl⟩

/-! ## Concrete sessions for witnesses -/

/-- Demo question 1: authoritative answer A among two options. -/
def qA : Question := ⟨1, "第一题", ["A.对", "B.错"], ['A']⟩

/-- Demo question 2: authoritative answers B and C among three options. -/
def qB : Question := ⟨2, "第二题", ["A.p", "B.q", "C.r"], ['B', 'C']⟩

/-- A fully answered session: the shuffles are nontrivial and the user has
selected, for each question, exactly the displayed positions whose original
labels form the authoritative set. -/
def demoSession : Session :=
  { quiz := [qA, qB]
    userAnswers := [['B'], ['A', 'C']]
    currentIndex := 0
    startTime := 0
    elapsedSeconds := 0
    optionShuffleMap := [[1, 0], [2, 0, 1]] }

/-- The same session with the first question left unanswered. -/
def unansweredSession : Session :=
  { quiz := [qA, qB]
    userAnswers := [[], ['A', 'C']]
    currentIndex := 0
    startTime := 0
    elapsedSeconds := 0
    optionShuffleMap := [[1, 0], [2, 0, 1]] }

/-! ## Session frame lemmas -/

/-- One session event leaves the option permutations and the question list
untouched. -/
lemma applyEvent_preserves (st : Session) (ev : QuizEvent) :
    (applyEvent st ev).optionShuffleMap = st.optionShuffleMap ∧
    (applyEvent st ev).quiz = st.quiz := by
  cases ev with
  | navigate idx =>
    by_cases h : 0 ≤ idx <;> simp [applyEvent, switch_question, show_question, h]
  | answer selected =>
    by_cases h : selected.isEmpty <;> simp [applyEvent, save_answer, h]
  | tick now => simp [applyEvent, update_timer]

/-- A sequence of session events leaves the option permutations and the
question list untouched. -/
lemma applyEvents_preserves (evs : List QuizEvent) :
    ∀ st, (applyEvents st evs).optionShuffleMap = st.optionShuffleMap ∧
      (applyEvents st evs).quiz = st.quiz := by
  induction evs with
  | nil => intro st; exact ⟨rfl, rfl⟩
  | cons ev evs ih =>
    intro st
    have h1 := applyEvent_preserves st ev
    have h2 := ih (applyEvent st ev)
    simp only [applyEvents, List.foldl_cons] at h2 ⊢
    exact ⟨h2.1.trans h1.1, h2.2.trans h1.2⟩

/-- The session returned by a successful `submit` is the submitted session. -/
lemma submit_eq_ok_imp (st s : Session) (r : GradeReport) (h : submit st = .ok (s, r)) :
    s = st := by
  unfold submit at h
  rcases hg : gradeQuestions st.quiz st.optionShuffleMap st.userAnswers with e | l <;>
    rw [hg] at h
  · cases h
  · simp only [Except.ok.injEq, Prod.mk.injEq] at h
    exact h.1.symm

/-- Aligned access into the two sides of a `Forall₂`. -/
lemma forall2_getD {α β : Type _} {R : α → β → Prop} {l1 : List α} {l2 : List β}
    (h : List.Forall₂ R l1 l2) (d1 : α) (d2 : β) :
    ∀ i, i < l1.length → R (l1.getD i d1) (l2.getD i d2) := by
  induction h with
  | nil => intro i hi; exact absurd hi (by simp)
  | cons hr hrest ih =>
    intro i hi
    cases i with
    | zero => simpa using hr
    | succ n =>
      simp only [List.getD_cons_succ]
      exact ih n (by simpa using hi)

/-- A stored permutation of a question's option indices enumerates each
option index exactly once. -/
lemma permOk_bijection {q : Question} {indices : List Nat} (h : permOk q indices) :
    bijectionOn indices q.options.length := by
  refine ⟨by simpa using h.length_eq, (h.symm).nodup (List.nodup_range _), fun k => ?_⟩
  rw [h.mem_iff, List.mem_range]

/-! ## C3: permutations are bijections and are never mutated -/

/-- C3: every option permutation generated at session start is a bijection
over the option indices of its question, no session event (navigation,
answer toggling, timer ticks) changes any permutation entry or the question
order, and a successful submission grades the very session state whose
permutations are the displayed ones. -/
theorem option_permutations_invariant (sq : List Question) (perms : List (List Nat))
    (now : Nat) (hp : List.Forall₂ permOk sq perms) :
    (∀ i, i < (reset_quiz sq perms now).quiz.length →
      bijectionOn ((reset_quiz sq perms now).optionShuffleMap.getD i [])
        (((reset_quiz sq perms now).quiz.getD i default).options.length)) ∧
    (∀ evs, (applyEvents (reset_quiz sq perms now) evs).optionShuffleMap =
        (reset_quiz sq perms now).optionShuffleMap ∧
      (applyEvents (reset_quiz sq perms now) evs).quiz = (reset_quiz sq perms now).quiz) ∧
    (∀ evs s r, submit (applyEvents (reset_quiz sq perms now) evs) = .ok (s, r) →
      s.optionShuffleMap = (reset_quiz sq perms now).optionShuffleMap) := by
  refine ⟨?_, ?_, ?_⟩
  · intro i hi
    exact permOk_bijection (forall2_getD hp default [] i (by simpa [reset_quiz] using hi))
  · intro evs
    exact applyEvents_preserves evs _
  · intro evs s r hsub
    rw [submit_eq_ok_imp _ s r hsub]
    exact (applyEvents_preserves evs _).1

/-- Witness for C3 at a concrete session and event sequence. -/
theorem option_permutations_invariant_witness :
    bijectionOn [2, 0, 1] 3 ∧
    (applyEvents (reset_quiz [qA, qB] [[1, 0], [2, 0, 1]] 5)
      [.navigate 1, .answer ['A'], .tick 9]).optionShuffleMap = [[1, 0], [2, 0, 1]] := by
  have h := option_permutations_invariant [qA, qB] [[1, 0], [2, 0, 1]] 5 (by decide)
  exact ⟨h.1 1 (by decide), (h.2.1 [.navigate 1, .answer ['A'], .tick 9]).1⟩

/-! ## C9: navigation only changes the current index -/

/-- C9: navigating to a valid question index changes only the current
question index: stored answers, option permutations, question order and the
start time are untouched, also after navigating away and back. -/
theorem switch_question_frame (st : Session) (idx : Int) (h0 : 0 ≤ idx)
    (hlt : idx.toNat < st.quiz.length) :
    (switch_question st idx).currentIndex = idx.toNat ∧
    (switch_question st idx).userAnswers = st.userAnswers ∧
    (switch_question st idx).optionShuffleMap = st.optionShuffleMap ∧
    (switch_question st idx).quiz = st.quiz ∧
    (switch_question st idx).startTime = st.startTime ∧
    ∀ back : Int, 0 ≤ back →
      (switch_question (switch_question st idx) back).userAnswers = st.userAnswers ∧
      (switch_question (switch_question st idx) back).currentIndex = back.toNat := by
  refine ⟨?_, ?_, ?_, ?_, ?_, ?_⟩ <;>
    simp only [switch_question, show_question, if_pos h0]
  intro back hb
  simp [if_pos hb]

/-- Witness for C9: navigate the demo session to its second question. -/
theorem switch_question_frame_witness :
    (switch_question demoSession 1).currentIndex = (1 : Int).toNat ∧
    (switch_question demoSession 1).userAnswers = demoSession.userAnswers ∧
    (switch_question demoSession 1).optionShuffleMap = demoSession.optionShuffleMap ∧
    (switch_question demoSession 1).quiz = demoSession.quiz ∧
    (switch_question demoSession 1).startTime = demoSession.startTime ∧
    ∀ back : Int, 0 ≤ back →
      (switch_question (switch_question demoSession 1) back).userAnswers =
        demoSession.userAnswers ∧
      (switch_question (switch_question demoSession 1) back).currentIndex = back.toNat :=
  switch_question_frame demoSession 1 (by decide) (by decide)

/-! ## C6: pre-submission confirmation -/

/-- C6: `try_submit` counts the questions with an empty stored answer set;
with none unanswered it grades at once with no prompt, with some unanswered
it grades only on confirmation and returns the session untouched on
refusal. -/
theorem try_submit_spec (st : Session) (confirmYes : Bool) :
    unansweredCount st = st.userAnswers.countP (fun ans => ans.isEmpty) ∧
    (unansweredCount st = 0 →
      try_submit st confirmYes = (submit st).map (fun p => .graded p.1 p.2)) ∧
    (0 < unansweredCount st → confirmYes = false →
      try_submit st confirmYes = .ok (.cancelled st)) ∧
    (0 < unansweredCount st → confirmYes = true →
      try_submit st confirmYes = (submit st).map (fun p => .graded p.1 p.2)) := by
  refine ⟨rfl, ?_, ?_, ?_⟩
  · intro h
    rw [try_submit, if_neg (by omega)]
  · intro h hc
    subst hc
    simp [try_submit, h]
  · intro h hc
    subst hc
    simp [try_submit, h]

/-- Witness for C6: one unanswered question and a refused confirmation leave
the session untouched. -/
theorem try_submit_spec_witness :
    try_submit unansweredSession false = .ok (.cancelled unansweredSession) :=
  (try_submit_spec unansweredSession false).2.2.1 (by decide) rfl

/-! ## Display lemmas -/

/-- The display loop produces one row per iterated label. -/
lemma displayedOptionsAux_length (options : List String) (indices : List Nat) :
    ∀ (l : List Char) (i : Nat), (displayedOptionsAux options indices i l).length = l.length := by
  intro l
  induction l with
  | nil => intro i; rfl
  | cons ab rest ih => intro i; simp [displayedOptionsAux, ih]

/-- The checkbox labels of the display rows are the iterated labels. -/
lemma displayedOptionsAux_map_fst (options : List String) (indices : List Nat) :
    ∀ (l : List Char) (i : Nat),
      (displayedOptionsAux options indices i l).map Prod.fst = l := by
  intro l
  induction l with
  | nil => intro i; rfl
  | cons ab rest ih => intro i; simp [displayedOptionsAux, ih]

/-- The display row at position `k` pairs the iterated label at `k` with the
text of the original option selected by the permutation at `i + k`. -/
lemma displayedOptionsAux_getD (options : List String) (indices : List Nat) :
    ∀ (l : List Char) (i k : Nat), k < l.length →
      (displayedOptionsAux options indices i l).getD k ('A', "") =
        (l.getD k 'A',
          String.mk ((options.getD (indices.getD (i + k) 0) "").data.drop 2)) := by
  intro l
  induction l with
  | nil => intro i k hk; exact absurd hk (by simp)
  | cons ab rest ih =>
    intro i k hk
    cases k with
    | zero => simp [displayedOptionsAux]
    | succ n =>
      simp only [displayedOptionsAux, List.getD_cons_succ]
      rw [ih (i + 1) n (by simpa using hk)]
      have harith : i + 1 + n = i + (n + 1) := by omega
      rw [harith]

/-! ## C10: at most eight displayed positions, silent skip in grading -/

/-- C10: only the first `min(n, 8)` displayed positions exist for a question
with `n` options — the displayed labels are exactly `abcd[:n]` — and the
grading of a label whose position is not below the permutation length is a
silent skip, not an error. -/
theorem display_limit_and_skip (options : List String) (indices : List Nat) :
    (displayedOptions options indices).length = min options.length 8 ∧
    (displayedOptions options indices).map Prod.fst = abcd.take options.length ∧
    (∀ ab k, List.indexOf? ab abcd = some k → indices.length ≤ k →
      gradeLabel options indices ab = .ok none) := by
  refine ⟨?_, ?_, ?_⟩
  · rw [displayedOptions, displayedOptionsAux_length]
    rw [List.length_take]
    rfl
  · rw [displayedOptions, displayedOptionsAux_map_fst]
  · intro ab k hk hlen
    simp only [gradeLabel, hk]
    rw [dif_neg (not_lt.mpr hlen)]

/-- Witness for C10: the computed parts at a three-option question, and the
silent skip for the in-alphabet label H whose position 7 is beyond the
permutation. -/
theorem display_limit_and_skip_witness :
    (displayedOptions ["A.p", "B.q", "C.r"] [2, 0, 1]).length = min 3 8 ∧
    (displayedOptions ["A.p", "B.q", "C.r"] [2, 0, 1]).map Prod.fst = abcd.take 3 ∧
    gradeLabel ["A.p", "B.q", "C.r"] [2, 0, 1] 'H' = .ok none := by
  have h := display_limit_and_skip ["A.p", "B.q", "C.r"] [2, 0, 1]
  exact ⟨h.1, h.2.1, h.2.2 'H' 7 (by decide) (by decide)⟩

/-! ## C2: round trip between display and grading -/

/-- Looking up a displayed letter in `abcd` recovers its position. -/
lemma abcd_indexOf_getD : ∀ i, i < 8 → List.indexOf? (abcd.getD i 'A') abcd = some i := by
  intro i hi
  interval_cases i <;> decide

/-- C2: for a displayed position `i` of a question, the display shows the
original option of index `j = permutation[i]`, and grading the displayed
letter of position `i` recovers exactly that option's original label (its
first character): display followed by the grading lookup is the identity on
option indices. -/
theorem display_grade_roundtrip (options : List String) (indices : List Nat) (i : Nat)
    (hi : i < options.length) (hi8 : i < 8)
    (hperm : indices.Perm (List.range options.length))
    (hne : ∀ opt ∈ options, opt.data ≠ []) :
    ∃ j, j < options.length ∧ indices.getD i 0 = j ∧
      (displayedOptions options indices).getD i ('A', "") =
        (abcd.getD i 'A', String.mk ((options.getD j "").data.drop 2)) ∧
      gradeLabel options indices (abcd.getD i 'A') =
        .ok (some ((options.getD j "").data.headD 'A')) := by
  have hlen : indices.length = options.length := by simpa using hperm.length_eq
  have hii : i < indices.length := by omega
  have hjmem : indices.get ⟨i, hii⟩ ∈ indices := List.get_mem _ _ _
  have hjlt : indices.get ⟨i, hii⟩ < options.length :=
    List.mem_range.mp (hperm.mem_iff.mp hjmem)
  have hgd : indices.getD i 0 = indices.get ⟨i, hii⟩ := List.getD_eq_get indices 0 hii
  refine ⟨indices.get ⟨i, hii⟩, hjlt, hgd, ?_, ?_⟩
  · rw [displayedOptions,
      displayedOptionsAux_getD options indices _ 0 i
        (by rw [List.length_take]; exact lt_min hi (by simpa [abcd] using hi8))]
    rw [Nat.zero_add, hgd]
    have htake : (abcd.take options.length).getD i 'A' = abcd.getD i 'A' := by
      rw [List.getD_eq_get?, List.getD_eq_get?, List.get?_take hi]
    rw [htake]
  · simp only [gradeLabel, abcd_indexOf_getD i hi8]
    rw [dif_pos hii]
    rw [List.get?_eq_get hjlt]
    have hdne : (options.get ⟨indices.get ⟨i, hii⟩, hjlt⟩).data ≠ [] :=
      hne _ (List.get_mem _ _ _)
    rw [List.getD_eq_get options "" hjlt]
    rcases hcs : (options.get ⟨indices.get ⟨i, hii⟩, hjlt⟩).data with - | ⟨c, cs⟩
    · exact absurd hcs hdne
    · have hcs2 : (options.get ⟨indices.get ⟨i, hii⟩, hjlt⟩).data = c :: cs := hcs
      simp only [List.get_eq_getElem] at hcs2 ⊢
      rw [hcs2]
      rfl

/-- Witness for C2 at a two-option question with the swap permutation. -/
theorem display_grade_roundtrip_witness :
    ∃ j, j < (["A.对", "B.错"] : List String).length ∧ ([1, 0] : List Nat).getD 0 0 = j ∧
      (displayedOptions ["A.对", "B.错"] [1, 0]).getD 0 ('A', "") =
        (abcd.getD 0 'A', String.mk (((["A.对", "B.错"] : List String).getD j "").data.drop 2)) ∧
      gradeLabel ["A.对", "B.错"] [1, 0] (abcd.getD 0 'A') =
        .ok (some (((["A.对", "B.错"] : List String).getD j "").data.headD 'A')) :=
  display_grade_roundtrip ["A.对", "B.错"] [1, 0] 0 (by decide) (by decide)
    (by decide) (by decide)

/-! ## Grading lemmas -/

/-- Grading one stored label never raises when the label is a displayed
letter, the permutation is genuine and every option string is labelled. -/
lemma gradeLabel_ok (options : List String) (indices : List Nat) (ab : Char)
    (hab : ab ∈ abcd) (hperm : indices.Perm (List.range options.length))
    (hne : ∀ opt ∈ options, opt.data ≠ []) :
    ∃ o, gradeLabel options indices ab = .ok o := by
  rcases hidx : List.indexOf? ab abcd with - | k
  · exact absurd (List.indexOf?_eq_none_iff.mp hidx ab hab) (by simp)
  · simp only [gradeLabel, hidx]
    by_cases hk : k < indices.length
    · rw [dif_pos hk]
      have hjlt : indices.get ⟨k, hk⟩ < options.length :=
        List.mem_range.mp (hperm.mem_iff.mp (List.get_mem _ _ _))
      rw [List.get?_eq_get hjlt]
      have hdne : (options.get ⟨indices.get ⟨k, hk⟩, hjlt⟩).data ≠ [] :=
        hne _ (List.get_mem _ _ _)
      rcases hcs : (options.get ⟨indices.get ⟨k, hk⟩, hjlt⟩).data with - | ⟨c, cs⟩
      · exact absurd hcs hdne
      · have hcs2 : (options.get ⟨indices.get ⟨k, hk⟩, hjlt⟩).data = c :: cs := hcs
        simp only [List.get_eq_getElem] at hcs2 ⊢
        rw [hcs2]
        exact ⟨some c, rfl⟩
    · rw [dif_neg hk]
      exact ⟨none, rfl⟩

/-- Building the mapped user set never raises under the same conditions,
whatever the accumulator. -/
lemma mapUserSetAux_ok (options : List String) (indices : List Nat)
    (hperm : indices.Perm (List.range options.length))
    (hne : ∀ opt ∈ options, opt.data ≠ []) :
    ∀ ans, labelsOk ans → ∀ acc, ∃ u, mapUserSetAux options indices acc ans = .ok u := by
  intro ans
  induction ans with
  | nil => intro _ acc; exact ⟨acc, rfl⟩
  | cons ab rest ih =>
    intro h acc
    obtain ⟨o, ho⟩ :=
      gradeLabel_ok options indices ab (h ab (List.mem_cons_self ab rest)) hperm hne
    have hrest : labelsOk rest := fun x hx => h x (List.mem_cons_of_mem ab hx)
    cases o with
    | some c =>
      simp only [mapUserSetAux, ho]
      exact ih hrest (acc.insert c)
    | none =>
      simp only [mapUserSetAux, ho]
      exact ih hrest acc

/-- `mapUserSet` never raises under the same conditions. -/
lemma mapUserSet_ok (options : List String) (indices : List Nat)
    (hperm : indices.Perm (List.range options.length))
    (hne : ∀ opt ∈ options, opt.data ≠ []) (ans : List Char) (h : labelsOk ans) :
    ∃ u, mapUserSet options indices ans = .ok u :=
  mapUserSetAux_ok options indices hperm hne ans h []

/-- Master soundness lemma for the grading loop: on a valid session slice it
returns a mismatch list whose entries are exactly the mismatch tuples of the
mismatching questions. -/
lemma gradeQuestions_sound :
    ∀ (quiz : List Question) (perms : List (List Nat)) (answers : List (List Char)),
      List.Forall₂ permOk quiz perms →
      List.Forall₂ (fun _ ans => labelsOk ans) quiz answers →
      (∀ q ∈ quiz, optionsNonempty q) →
      ∃ l, gradeQuestions quiz perms answers = .ok l ∧
        (∀ e ∈ l, ∃ k, k < quiz.length ∧ ∃ u,
          mapUserSet (quiz.getD k default).options (perms.getD k [])
            (answers.getD k []) = .ok u ∧
          u.toFinset ≠ ((quiz.getD k default).answer).toFinset ∧
          e = mkWrongEntry (quiz.getD k default) u) ∧
        (∀ j, j < quiz.length → ∃ u,
          mapUserSet (quiz.getD j default).options (perms.getD j [])
            (answers.getD j []) = .ok u ∧
          (u.toFinset ≠ ((quiz.getD j default).answer).toFinset →
            mkWrongEntry (quiz.getD j default) u ∈ l)) := by
  intro quiz perms answers hp
  induction hp generalizing answers with
  | nil =>
    intro _ _
    exact ⟨[], rfl, by simp, fun j hj => absurd hj (by simp)⟩
  | @cons q p qs ps hqp hqsps ih =>
    intro ha ho
    cases ha with
    | cons ha1 has =>
      have hoq : optionsNonempty q := ho q (List.mem_cons_self _ _)
      obtain ⟨u, hu⟩ := mapUserSet_ok q.options p hqp hoq _ ha1
      obtain ⟨l, hl, hA, hB⟩ := ih _ has (fun q2 h2 => ho q2 (List.mem_cons_of_mem _ h2))
      by_cases hmatch : u.toFinset = q.answer.toFinset
      · refine ⟨l, ?_, ?_, ?_⟩
        · simp only [gradeQuestions, hu, hl, if_pos hmatch]
        · intro e he
          obtain ⟨k, hk, u2, hu2, hne2, hee⟩ := hA e he
          exact ⟨k + 1, by simpa using hk,
            u2, by simpa [List.getD_cons_succ] using hu2,
            by simpa [List.getD_cons_succ] using hne2,
            by simpa [List.getD_cons_succ] using hee⟩
        · intro j hj
          cases j with
          | zero =>
            exact ⟨u, by simpa using hu, fun hcon => absurd hmatch hcon⟩
          | succ n =>
            obtain ⟨u2, hu2, hmem2⟩ := hB n (by simpa using hj)
            exact ⟨u2, by simpa [List.getD_cons_succ] using hu2,
              fun hcon => by
                simp only [List.getD_cons_succ]
                exact hmem2 (by simpa [List.getD_cons_succ] using hcon)⟩
      · refine ⟨mkWrongEntry q u :: l, ?_, ?_, ?_⟩
        · simp only [gradeQuestions, hu, hl, if_neg hmatch]
        · intro e he
          rcases List.mem_cons.mp he with rfl | hmem
          · exact ⟨0, by simp, u, by simpa using hu, by simpa using hmatch, by simp⟩
          · obtain ⟨k, hk, u2, hu2, hne2, hee⟩ := hA e hmem
            exact ⟨k + 1, by simpa using hk,
              u2, by simpa [List.getD_cons_succ] using hu2,
              by simpa [List.getD_cons_succ] using hne2,
              by simpa [List.getD_cons_succ] using hee⟩
        · intro j hj
          cases j with
          | zero =>
            exact ⟨u, by simpa using hu, fun _ => List.mem_cons_self _ _⟩
          | succ n =>
            obtain ⟨u2, hu2, hmem2⟩ := hB n (by simpa using hj)
            exact ⟨u2, by simpa [List.getD_cons_succ] using hu2,
              fun hcon => by
                simp only [List.getD_cons_succ]
                exact List.mem_cons_of_mem _
                  (hmem2 (by simpa [List.getD_cons_succ] using hcon))⟩

/-! ## C8: grading is total on valid sessions, but not on arbitrary labels -/

/-- A session whose permutations cover the option lists but whose stored
answers contain the letter Z, which is not in the display alphabet. -/
def poisonedSession : Session :=
  ⟨[⟨1, "q", ["A.x"], ['A']⟩], [['Z']], 0, 0, 0, [[0]]⟩

/-- Counterexample to C8 as stated: on a session whose permutation covers
the single question's option list, grading a stored label Z raises the
`ValueError` of `abcd.index`, so grading is not error-free for arbitrary
contents of the stored answer sets. -/
theorem submit_error_on_foreign_label :
    List.Forall₂ permOk poisonedSession.quiz poisonedSession.optionShuffleMap ∧
    (∀ q ∈ poisonedSession.quiz, optionsNonempty q) ∧
    submit poisonedSession = .error "ValueError: label is not in list" :=
  ⟨by decide, by decide, rfl⟩

/-- C8 as amended: grading is a pure, total function of the session state
for every session whose permutations cover the questions' option lists,
whose option strings are non-empty, and whose stored answers hold only
displayed letters; it then raises no error and returns the session
unmodified alongside the report. -/
theorem submit_pure_total (st : Session) (hok : SessionOk st) :
    ∃ r, submit st = .ok (st, r) := by
  obtain ⟨hp, ha, ho⟩ := hok
  obtain ⟨l, hl, -, -⟩ := gradeQuestions_sound st.quiz st.optionShuffleMap st.userAnswers hp ha ho
  exact ⟨⟨l.length, st.quiz.length, List.insertionSort entryRel l⟩, by simp only [submit, hl]⟩

/-- Witness for the amended C8 at the fully answered demo session. -/
theorem submit_pure_total_witness : ∃ r, submit demoSession = .ok (demoSession, r) :=
  submit_pure_total demoSession (by decide)

/-! ## C1: exact set match grading -/

/-- With pairwise distinct question ids, equal ids at two positions force
the positions to coincide. -/
lemma nodup_ids_getD_inj (quiz : List Question) (h : (quiz.map Question.id).Nodup)
    {k j : Nat} (hk : k < quiz.length) (hj : j < quiz.length)
    (heq : (quiz.getD k default).id = (quiz.getD j default).id) : k = j := by
  have hinj := List.nodup_iff_injective_get.mp h
  have hk2 : k < (quiz.map Question.id).length := by simpa using hk
  have hj2 : j < (quiz.map Question.id).length := by simpa using hj
  have e1 : (quiz.map Question.id).get ⟨k, hk2⟩ = (quiz.getD k default).id := by
    rw [List.get_map]
    congr 1
    exact (List.getD_eq_get quiz default hk).symm
  have e2 : (quiz.map Question.id).get ⟨j, hj2⟩ = (quiz.getD j default).id := by
    rw [List.get_map]
    congr 1
    exact (List.getD_eq_get quiz default hj).symm
  have h3 : (⟨k, hk2⟩ : Fin (quiz.map Question.id).length) = ⟨j, hj2⟩ :=
    hinj (by rw [e1, e2, heq])
  simpa using congrArg Fin.val h3

/-- C1: on a valid session with distinct question ids, grading marks a
question correct — it contributes no entry of the wrong-answer report —
exactly when the user's displayed selections, mapped through the question's
permutation to original labels, form precisely the authoritative answer
set.  A question whose id appears in the report is one whose mapped set
differs, so any missing or extra selection (including an empty selection
against a non-empty answer) makes the question wrong. -/
theorem grading_exact_set_match (st : Session) (hok : SessionOk st)
    (hids : (st.quiz.map Question.id).Nodup) (i : Nat) (hi : i < st.quiz.length) :
    ∃ r u, submit st = .ok (st, r) ∧
      mapUserSet (st.quiz.getD i default).options (st.optionShuffleMap.getD i [])
        (st.userAnswers.getD i []) = .ok u ∧
      (u.toFinset = ((st.quiz.getD i default).answer).toFinset ↔
        ∀ e ∈ r.wrong, e.id ≠ (st.quiz.getD i default).id) := by
  obtain ⟨hp, ha, ho⟩ := hok
  obtain ⟨l, hl, hA, hB⟩ := gradeQuestions_sound st.quiz st.optionShuffleMap st.userAnswers hp ha ho
  obtain ⟨u, hu, hmem⟩ := hB i hi
  refine ⟨⟨l.length, st.quiz.length, List.insertionSort entryRel l⟩, u,
    by simp only [submit, hl], hu, ?_⟩
  have hsortmem : ∀ e : WrongEntry, e ∈ List.insertionSort entryRel l ↔ e ∈ l :=
    fun e => (List.perm_insertionSort entryRel l).mem_iff
  constructor
  · intro hequal e he hid
    obtain ⟨k, hk, u2, hu2, hne2, hee⟩ := hA e ((hsortmem e).mp he)
    have hidk : e.id = (st.quiz.getD k default).id := by rw [hee]; rfl
    have hki : k = i := nodup_ids_getD_inj st.quiz hids hk hi (by rw [← hidk, hid])
    subst hki
    have huu : u2 = u := by
      have := hu.symm.trans hu2
      exact (Except.ok.injEq _ _).mp this.symm
    rw [huu] at hne2
    exact hne2 hequal
  · intro hnomem
    by_contra hneq
    have hm := (hsortmem _).mpr (hmem hneq)
    exact hnomem _ hm rfl

/-- Witness for C1 at the fully answered demo session, first question. -/
theorem grading_exact_set_match_witness :
    ∃ r u, submit demoSession = .ok (demoSession, r) ∧
      mapUserSet (demoSession.quiz.getD 0 default).options
        (demoSession.optionShuffleMap.getD 0 [])
        (demoSession.userAnswers.getD 0 []) = .ok u ∧
      (u.toFinset = ((demoSession.quiz.getD 0 default).answer).toFinset ↔
        ∀ e ∈ r.wrong, e.id ≠ (demoSession.quiz.getD 0 default).id) :=
  grading_exact_set_match demoSession (by decide) (by decide) 0 (by decide)

/-! ## C7: shape and ordering of the grading report -/

/-- The label string recorded in a mismatch entry is sorted by code point. -/
lemma sortedString_sorted (l : List Char) :
    List.Sorted (fun a b : Char => a ≤ b) (sortedString l).data := by
  haveI h1 : IsTotal Char (fun a b : Char => a ≤ b) := ⟨fun a b => le_total a b⟩
  haveI h2 : IsTrans Char (fun a b : Char => a ≤ b) := ⟨fun a b c hab hbc => le_trans hab hbc⟩
  exact List.sorted_insertionSort _ l.dedup

/-- The label string recorded in a mismatch entry enumerates exactly the
label set it renders. -/
lemma sortedString_toFinset (l : List Char) : (sortedString l).data.toFinset = l.toFinset := by
  show (List.insertionSort _ l.dedup).toFinset = l.toFinset
  rw [List.toFinset_eq_of_perm _ _ (List.perm_insertionSort _ _)]
  ext c
  simp [List.mem_toFinset, List.mem_dedup]

/-- The tuple order on mismatch entries compares question ids first. -/
lemma entryRel_id_le {a b : WrongEntry} (h : entryRel a b) : a.id ≤ b.id := by
  unfold entryRel entryKey at h
  rcases (Prod.Lex.le_iff _ _).mp h with hlt | ⟨heq, -⟩
  · exact le_of_lt hlt
  · exact le_of_eq heq

/-- The sorted mismatch list is ordered by ascending question id. -/
lemma insertionSort_entryRel_id_le (l : List WrongEntry) :
    List.Pairwise (fun a b : WrongEntry => a.id ≤ b.id) (List.insertionSort entryRel l) := by
  haveI h1 : IsTotal WrongEntry entryRel := ⟨fun a b => le_total (entryKey a) (entryKey b)⟩
  haveI h2 : IsTrans WrongEntry entryRel :=
    ⟨fun a b c hab hbc => le_trans (α := Lex (Nat × Lex (String ×
      Lex (List String × Lex (String × String))))) hab hbc⟩
  exact (List.sorted_insertionSort entryRel l).imp (fun hab => entryRel_id_le hab)

/-- C7: on a valid session, the report carries the question count, the
mismatch count (the length of the mismatch list), and the mismatch list
sorted by ascending question id — not session display order — where each
entry holds the question id, the question text, the full option list, the
sorted rendering of the authoritative label set, and the sorted rendering
of the user's mapped label set. -/
theorem grading_report_spec (st : Session) (hok : SessionOk st) :
    ∃ r, submit st = .ok (st, r) ∧
      r.total = st.quiz.length ∧
      r.wrongCount = r.wrong.length ∧
      List.Pairwise (fun a b : WrongEntry => a.id ≤ b.id) r.wrong ∧
      ∀ e ∈ r.wrong, ∃ k, k < st.quiz.length ∧ ∃ u,
        mapUserSet (st.quiz.getD k default).options (st.optionShuffleMap.getD k [])
          (st.userAnswers.getD k []) = .ok u ∧
        u.toFinset ≠ ((st.quiz.getD k default).answer).toFinset ∧
        e.id = (st.quiz.getD k default).id ∧
        e.question = (st.quiz.getD k default).question ∧
        e.options = (st.quiz.getD k default).options ∧
        e.right = sortedString ((st.quiz.getD k default).answer) ∧
        e.user = sortedString u ∧
        List.Sorted (fun a b : Char => a ≤ b) e.right.data ∧
        e.right.data.toFinset = ((st.quiz.getD k default).answer).toFinset ∧
        List.Sorted (fun a b : Char => a ≤ b) e.user.data ∧
        e.user.data.toFinset = u.toFinset := by
  obtain ⟨hp, ha, ho⟩ := hok
  obtain ⟨l, hl, hA, hB⟩ := gradeQuestions_sound st.quiz st.optionShuffleMap st.userAnswers hp ha ho
  refine ⟨⟨l.length, st.quiz.length, List.insertionSort entryRel l⟩,
    by simp only [submit, hl], rfl,
    ((List.perm_insertionSort entryRel l).length_eq).symm,
    insertionSort_entryRel_id_le l, ?_⟩
  intro e he
  obtain ⟨k, hk, u, hu, hne2, hee⟩ :=
    hA e ((List.perm_insertionSort entryRel l).mem_iff.mp he)
  subst hee
  exact ⟨k, hk, u, hu, hne2, rfl, rfl, rfl, rfl, rfl,
    sortedString_sorted _, sortedString_toFinset _,
    sortedString_sorted _, sortedString_toFinset _⟩

/-- Witness for C7 at the session with one unanswered (hence wrong)
question. -/
theorem grading_report_spec_witness :
    ∃ r, submit unansweredSession = .ok (unansweredSession, r) ∧
      r.total = unansweredSession.quiz.length ∧
      r.wrongCount = r.wrong.length ∧
      List.Pairwise (fun a b : WrongEntry => a.id ≤ b.id) r.wrong ∧
      ∀ e ∈ r.wrong, ∃ k, k < unansweredSession.quiz.length ∧ ∃ u,
        mapUserSet (unansweredSession.quiz.getD k default).options
          (unansweredSession.optionShuffleMap.getD k [])
          (unansweredSession.userAnswers.getD k []) = .ok u ∧
        u.toFinset ≠ ((unansweredSession.quiz.getD k default).answer).toFinset ∧
        e.id = (unansweredSession.quiz.getD k default).id ∧
        e.question = (unansweredSession.quiz.getD k default).question ∧
        e.options = (unansweredSession.quiz.getD k default).options ∧
        e.right = sortedString ((unansweredSession.quiz.getD k default).answer) ∧
        e.user = sortedString u ∧
        List.Sorted (fun a b : Char => a ≤ b) e.right.data ∧
        e.right.data.toFinset = ((unansweredSession.quiz.getD k default).answer).toFinset ∧
        List.Sorted (fun a b : Char => a ≤ b) e.user.data ∧
        e.user.data.toFinset = u.toFinset :=
  grading_report_spec unansweredSession (by decide)
